import Mathlib

/-!
# Verification of the smartflow-todo task ranking and filtering engine

Shallow embedding of the pure core of the application: the scoring,
sorting, filtering and counting functions from
`src/utils/taskSorting.ts` (`calculateTaskScore`, `sortTasksByPriority`,
`filterTasks`, `sortAndFilterTasks`, `getTaskCounts`) together with
`hoursUntilDeadline` from `src/utils/dateUtils.ts`.

Modelling conventions:
* JavaScript numbers are embedded as `ℚ` (all arithmetic the core
  performs on them — subtraction, division by a constant, `min`,
  comparisons — is exact on the values of interest).
* A task's `deadline` is an ISO 8601 string in the source; the core only
  ever uses `new Date(deadline).getTime()`, so the embedding carries the
  parsed timestamp in milliseconds as an `Int` (the claims are restricted
  to parseable deadlines).
* `new Date()` (the wall-clock read) is made explicit: the fixed-clock
  embedding takes `now` (milliseconds) as a parameter, and a separate
  clock-trace semantics (`hoursUntilDeadlineClk` etc.) threads a read
  counter through the computation, mirroring the fact that the source
  re-reads the clock on every call of `hoursUntilDeadline`.
* `[...tasks].sort(cmp)` with the consistent comparator of the source is
  embedded as `List.mergeSort` with the total relation `cmp a b ≤ 0`,
  which is exactly the sorted-and-stable result ECMAScript prescribes.
  Non-mutation of the input is inherent in the functional embedding.
* The filter selection `TaskFilter` is the string union
  `'all' | 'active' | 'completed'`; it is embedded as `String` so that
  the behaviour of the `default:` branch on unrecognized values is part
  of the model.
-/

namespace SmartFlow

/-- The `Priority` enum from `src/types/index.ts`. -/
inductive Priority where
  | low
  | medium
  | high
deriving DecidableEq, Repr

/-- The `Task` record from `src/types/index.ts`.  The fields the core
reads are `priority`, `deadline` (embedded as the parsed timestamp in
milliseconds) and `completed`; the remaining fields (`id`, `userId`,
`title`, `description`, `dateTime`, `category`, `createdAt`,
`updatedAt`) are opaque to the core and are represented by the opaque
`id` and `title` fields, which the core passes through unchanged. -/
structure Task where
  id : String
  title : String
  priority : Priority
  deadline : Int
  completed : Bool
deriving DecidableEq, Repr

/-- Embedding of `hoursUntilDeadline` from `src/utils/dateUtils.ts`:
`(deadline.getTime() − now.getTime()) / (1000*60*60)`.  The source reads
`now` from the wall clock inside the function; here the reading is an
explicit parameter. -/
def hoursUntilDeadline (deadline now : Int) : ℚ :=
  ((deadline - now : Int) : ℚ) / (1000 * 60 * 60)

/-- The `PRIORITY_WEIGHTS` map from `src/utils/taskSorting.ts`. -/
def PRIORITY_WEIGHTS : Priority → ℚ
  | Priority.high => 100
  | Priority.medium => 50
  | Priority.low => 10

/-- Embedding of `calculateTaskScore` from `src/utils/taskSorting.ts`, with the
wall-clock reading `now` passed explicitly. -/
def calculateTaskScore (now : Int) (task : Task) : ℚ :=
  if task.completed then
    -1000
  else
    let score := PRIORITY_WEIGHTS task.priority
    let hoursRemaining := hoursUntilDeadline task.deadline now
    let score :=
      if hoursRemaining < 0 then score + 1000
      else if hoursRemaining < 24 then score + 500
      else if hoursRemaining < 48 then score + 200
      else if hoursRemaining < 168 then score + 50
      else score
    score - min hoursRemaining 1000

/-- The comparator passed to `sort` inside `sortTasksByPriority`
(`src/utils/taskSorting.ts`), with the wall-clock reading `now` passed
explicitly.  Returns the sign-carrying number the source returns. -/
def compareTasks (now : Int) (a b : Task) : ℚ :=
  if a.completed && !b.completed then 1
  else if !a.completed && b.completed then -1
  else
    let scoreA := calculateTaskScore now a
    let scoreB := calculateTaskScore now b
    if scoreA ≠ scoreB then
      scoreB - scoreA
    else
      ((a.deadline - b.deadline : Int) : ℚ)

/-- The "keep `a` no later than `b`" relation induced by the comparator:
`compareTasks now a b ≤ 0`.  A stable sort by this relation is the
result ECMAScript prescribes for `sort` with a consistent comparator. -/
def taskLE (now : Int) (a b : Task) : Bool :=
  decide (compareTasks now a b ≤ 0)

/-- Embedding of `sortTasksByPriority` from `src/utils/taskSorting.ts`:
`[...tasks].sort(comparator)`, i.e. a stable sort of a copy of the input
by the comparator. -/
def sortTasksByPriority (now : Int) (tasks : List Task) : List Task :=
  tasks.mergeSort (taskLE now)

/-- Embedding of `filterTasks` from `src/utils/taskSorting.ts`.  The selection is a
string; the `switch` sends `'active'` and `'completed'` to the
respective filters and everything else (including `'all'`) through the
`default:` branch, which returns the input. -/
def filterTasks (tasks : List Task) (filter : String) : List Task :=
  if filter = "active" then tasks.filter (fun task => !task.completed)
  else if filter = "completed" then tasks.filter (fun task => task.completed)
  else tasks

/-- Embedding of `sortAndFilterTasks` from `src/utils/taskSorting.ts`: filter first,
then sort. -/
def sortAndFilterTasks (now : Int) (tasks : List Task) (filter : String) :
    List Task :=
  sortTasksByPriority now (filterTasks tasks filter)

/-- Result record of `getTaskCounts` (`Record<TaskFilter, number>`). -/
structure TaskCounts where
  all : Nat
  active : Nat
  completed : Nat
deriving DecidableEq, Repr

/-- Embedding of `getTaskCounts` from `src/utils/taskSorting.ts`. -/
def getTaskCounts (tasks : List Task) : TaskCounts where
  all := tasks.length
  active := (tasks.filter (fun task => !task.completed)).length
  completed := (tasks.filter (fun task => task.completed)).length

/-! ## Clock-trace semantics

The source of `hoursUntilDeadline` evaluates `new Date()` itself, so
every call samples the wall clock.  The definitions below make that
effect explicit by state passing: `trace k` is the value (in
milliseconds) returned by the `k`-th `new Date()` evaluation, and each
function returns the advanced read counter along with its value. -/

/-- Clock-trace semantics of `hoursUntilDeadline`: consumes one clock
reading. -/
def hoursUntilDeadlineClk (trace : Nat → Int) (deadline : Int) (k : Nat) :
    ℚ × Nat :=
  (((deadline - trace k : Int) : ℚ) / (1000 * 60 * 60), k + 1)

/-- Clock-trace semantics of `calculateTaskScore`: completed tasks
return early without reading the clock; incomplete tasks read it once
via `hoursUntilDeadline`. -/
def calculateTaskScoreClk (trace : Nat → Int) (task : Task) (k : Nat) :
    ℚ × Nat :=
  if task.completed then (-1000, k)
  else
    let score := PRIORITY_WEIGHTS task.priority
    let hr := hoursUntilDeadlineClk trace task.deadline k
    let hoursRemaining := hr.1
    let score :=
      if hoursRemaining < 0 then score + 1000
      else if hoursRemaining < 24 then score + 500
      else if hoursRemaining < 48 then score + 200
      else if hoursRemaining < 168 then score + 50
      else score
    (score - min hoursRemaining 1000, hr.2)

/-- Clock-trace semantics of the comparator inside `sortTasksByPriority`:
when neither completion short-circuit fires it computes both scores in
order, consuming one clock reading per incomplete task. -/
def compareTasksClk (trace : Nat → Int) (a b : Task) (k : Nat) : ℚ × Nat :=
  if a.completed && !b.completed then (1, k)
  else if !a.completed && b.completed then (-1, k)
  else
    let sa := calculateTaskScoreClk trace a k
    let sb := calculateTaskScoreClk trace b sa.2
    if sa.1 ≠ sb.1 then (sb.1 - sa.1, sb.2)
    else (((a.deadline - b.deadline : Int) : ℚ), sb.2)

/-! ## Spec-side definitions

These follow the wording of the specification and the claims, to be
compared with the embedded source functions above. -/

/-- The priority base weights as the specification words them:
HIGH = 100, MEDIUM = 50, LOW = 10. -/
def specBase : Priority → ℚ
  | Priority.high => 100
  | Priority.medium => 50
  | Priority.low => 10

/-- The urgency bonus tiers as the specification words them: the first
matching tier wins, mutually exclusive and not cumulative. -/
def urgencyBonus (hoursRemaining : ℚ) : ℚ :=
  if hoursRemaining < 0 then 1000
  else if hoursRemaining < 24 then 500
  else if hoursRemaining < 48 then 200
  else if hoursRemaining < 168 then 50
  else 0

/-- The sort order described by the specification, as a
"`a` may come no later than `b`" relation, evaluated top-down: every
incomplete task strictly before every completed one; among equal
completion status the higher score first; score ties broken by earlier
absolute deadline; tasks equal in all three keys are interchangeable
(the stable sort keeps their input order). -/
def specBefore (now : Int) (a b : Task) : Prop :=
  (a.completed = false ∧ b.completed = true) ∨
  (a.completed = b.completed ∧
    calculateTaskScore now b < calculateTaskScore now a) ∨
  (a.completed = b.completed ∧
    calculateTaskScore now a = calculateTaskScore now b ∧
    a.deadline ≤ b.deadline)

/-! ## Theorems -/

/-- C1. For every task and evaluation time `now`, `calculateTaskScore`
returns `-1000` if `task.completed` is true; otherwise it returns
`base + bonus − min(hoursRemaining, 1000)`, where `base` is 100 for HIGH,
50 for MEDIUM, 10 for LOW priority, `hoursRemaining = (deadline − now)`
in hours (signed, negative means overdue), and `bonus` is the first
matching tier, mutually exclusive and not cumulative: +1000 if
`hoursRemaining < 0`, +500 if `< 24`, +200 if `< 48`, +50 if `< 168`,
else +0. -/
theorem calculateTaskScore_spec (now : Int) (t : Task) :
    calculateTaskScore now t =
      if t.completed then -1000
      else
        specBase t.priority
          + urgencyBonus (((t.deadline - now : Int) : ℚ) / 3600000)
          - min (((t.deadline - now : Int) : ℚ) / 3600000) 1000 := by
  have hh : hoursUntilDeadline t.deadline now
      = ((t.deadline - now : Int) : ℚ) / 3600000 := by
    unfold hoursUntilDeadline; norm_num
  have hb : PRIORITY_WEIGHTS t.priority = specBase t.priority := by
    cases t.priority <;> rfl
  unfold calculateTaskScore urgencyBonus
  by_cases hc : t.completed
  · simp [hc]
  · simp only [hc, if_false, Bool.false_eq_true, hh, hb]
    split_ifs <;> ring

/-- C4. `getTaskCounts` returns `all` = the length of the input,
`active` = the number of incomplete tasks, `completed` = the number of
complete tasks, and `all = active + completed` holds for every input
collection; the counts are computed from the unfiltered collection only
(the function takes no filter selection). -/
theorem getTaskCounts_spec (tasks : List Task) :
    (getTaskCounts tasks).all = tasks.length ∧
    (getTaskCounts tasks).active = tasks.countP (fun t => t.completed = false) ∧
    (getTaskCounts tasks).completed = tasks.countP (fun t => t.completed = true) ∧
    (getTaskCounts tasks).all
      = (getTaskCounts tasks).active + (getTaskCounts tasks).completed := by
  refine ⟨rfl, ?_, ?_, ?_⟩
  · simp [getTaskCounts, List.countP_eq_length_filter]
  · simp [getTaskCounts, List.countP_eq_length_filter]
  · unfold getTaskCounts
    simp only
    induction tasks with
    | nil => rfl
    | cons t ts ih =>
      by_cases hc : t.completed <;>
        simp [List.filter_cons, hc, ih] <;> omega

/-- C5. For every pair of tasks identical except in `completed`,
evaluated at the same `now`, the score of the completed copy is strictly
below the score of the incomplete copy. -/
theorem score_completed_lt_incomplete (now : Int) (t : Task) :
    calculateTaskScore now { t with completed := true }
      < calculateTaskScore now { t with completed := false } := by
  have hL : calculateTaskScore now { t with completed := true } = -1000 := by
    simp [calculateTaskScore]
  have hbase : (10 : ℚ) ≤ PRIORITY_WEIGHTS t.priority := by
    cases t.priority <;> norm_num [PRIORITY_WEIGHTS]
  have hmin : min (hoursUntilDeadline t.deadline now) 1000 ≤ 1000 :=
    min_le_right _ _
  have hR : (-990 : ℚ) ≤ calculateTaskScore now { t with completed := false } := by
    simp only [calculateTaskScore, Bool.false_eq_true, if_false]
    split_ifs <;> linarith
  linarith

/-- On the selection `'active'`, `filterTasks` is the filter by
`!completed`. -/
theorem filterTasks_active (tasks : List Task) :
    filterTasks tasks "active" = tasks.filter (fun t => !t.completed) := by
  simp [filterTasks]

/-- On the selection `'completed'`, `filterTasks` is the filter by
`completed`. -/
theorem filterTasks_completed (tasks : List Task) :
    filterTasks tasks "completed" = tasks.filter (fun t => t.completed) := by
  simp [filterTasks]

/-- C3. Every element of `filterTasks tasks "active"` is incomplete;
every element of `filterTasks tasks "completed"` is complete;
`filterTasks tasks "all"` returns all elements in original order; and for
every selection the result is an order-preserving subsequence of the
input (the input itself is untouched: the embedding is a pure
function). -/
theorem filterTasks_spec (tasks : List Task) :
    (∀ t ∈ filterTasks tasks "active", t.completed = false) ∧
    (∀ t ∈ filterTasks tasks "completed", t.completed = true) ∧
    filterTasks tasks "all" = tasks ∧
    (∀ f : String, (filterTasks tasks f).Sublist tasks) := by
  refine ⟨?_, ?_, ?_, ?_⟩
  · intro t ht
    rw [filterTasks_active] at ht
    simpa using List.of_mem_filter ht
  · intro t ht
    rw [filterTasks_completed] at ht
    simpa using List.of_mem_filter ht
  · simp [filterTasks]
  · intro f
    unfold filterTasks
    split_ifs <;> first
      | exact List.filter_sublist _
      | exact List.Sublist.refl _

/-- Concrete incomplete task used in witnesses. -/
def wTaskA : Task :=
  { id := "a", title := "A", priority := Priority.high, deadline := 0,
    completed := false }

/-- Concrete completed task used in witnesses. -/
def wTaskB : Task :=
  { id := "b", title := "B", priority := Priority.low, deadline := 3600000,
    completed := true }

/-- Witness for C3 at the concrete list `[wTaskA, wTaskB]`. -/
theorem filterTasks_spec_witness :
    wTaskA.completed = false ∧ wTaskB.completed = true ∧
    filterTasks [wTaskA, wTaskB] "all" = [wTaskA, wTaskB] ∧
    (filterTasks [wTaskA, wTaskB] "bogus").Sublist [wTaskA, wTaskB] :=
  ⟨(filterTasks_spec [wTaskA, wTaskB]).1 wTaskA (by decide),
   (filterTasks_spec [wTaskA, wTaskB]).2.1 wTaskB (by decide),
   (filterTasks_spec [wTaskA, wTaskB]).2.2.1,
   (filterTasks_spec [wTaskA, wTaskB]).2.2.2 "bogus"⟩

/-- C6. For every task list and every selection string that is none
of the recognized values `all`, `active`, `completed`, `filterTasks`
falls through the `default:` branch and behaves as ALL: it returns all
tasks in original order (and, being a total function, never throws). -/
theorem filterTasks_unrecognized (tasks : List Task) (f : String)
    (h1 : f ≠ "all") (h2 : f ≠ "active") (h3 : f ≠ "completed") :
    filterTasks tasks f = tasks := by
  unfold filterTasks
  rw [if_neg h2, if_neg h3]

/-- Witness for C6 at the concrete selection `"bogus"`. -/
theorem filterTasks_unrecognized_witness :
    ("bogus" : String) ≠ "all" ∧ ("bogus" : String) ≠ "active" ∧
    ("bogus" : String) ≠ "completed" ∧
    filterTasks [wTaskA, wTaskB] "bogus" = [wTaskA, wTaskB] :=
  ⟨by decide, by decide, by decide,
   filterTasks_unrecognized [wTaskA, wTaskB] "bogus" (by decide) (by decide)
     (by decide)⟩

/-! ## The comparator as a lexicographic key -/

/-- The lexicographic key the comparator realizes: completion status
(`false < true`, so incomplete first), then negated score (higher score
first), then deadline (earlier first). -/
def taskKey (now : Int) (t : Task) : Bool ×ₗ (ℚ ×ₗ ℤ) :=
  toLex (t.completed, toLex (-(calculateTaskScore now t), t.deadline))

/-- The score/deadline part of the comparator decides the inner
lexicographic key. -/
theorem cmp_core_le_iff (sa sb : ℚ) (da db : Int) :
    ((if sa ≠ sb then sb - sa else ((da - db : Int) : ℚ)) ≤ 0)
      ↔ (toLex (-sa, da) ≤ toLex (-sb, db)) := by
  rw [Prod.Lex.le_iff]
  by_cases hs : sa = sb
  · subst hs
    rw [if_neg (by simp)]
    simp [Int.cast_nonpos, sub_nonpos, lt_irrefl]
  · rw [if_pos hs, sub_nonpos]
    constructor
    · intro h
      exact Or.inl (neg_lt_neg_iff.mpr (lt_of_le_of_ne h (Ne.symm hs)))
    · rintro (h | ⟨h, -⟩)
      · exact le_of_lt (neg_lt_neg_iff.mp h)
      · exact absurd (neg_inj.mp h) hs

/-- The relation the sort uses is exactly "key of `a` ≤ key of `b`" in
the lexicographic order. -/
theorem taskLE_iff (now : Int) (a b : Task) :
    taskLE now a b = true ↔ taskKey now a ≤ taskKey now b := by
  unfold taskLE taskKey compareTasks
  rw [decide_eq_true_eq]
  cases ha : a.completed <;> cases hb : b.completed
  · rw [if_neg (by simp), if_neg (by simp), cmp_core_le_iff]
    simp [Prod.Lex.le_iff, Bool.lt_iff]
  · rw [if_neg (by simp), if_pos (by simp)]
    norm_num [Prod.Lex.le_iff, Bool.lt_iff]
  · rw [if_pos (by simp)]
    norm_num [Prod.Lex.le_iff, Bool.lt_iff]
  · rw [if_neg (by simp), if_neg (by simp), cmp_core_le_iff]
    simp [Prod.Lex.le_iff, Bool.lt_iff]

/-- The comparator-induced relation is total. -/
theorem taskLE_total (now : Int) (a b : Task) :
    (taskLE now a b || taskLE now b a) = true := by
  rw [Bool.or_eq_true, taskLE_iff, taskLE_iff]
  exact le_total _ _

/-- The comparator-induced relation is transitive. -/
theorem taskLE_trans (now : Int) (a b c : Task) :
    taskLE now a b = true → taskLE now b c = true → taskLE now a c = true := by
  rw [taskLE_iff, taskLE_iff, taskLE_iff]
  exact le_trans

/-- The comparator-induced relation implies the order described by the
specification. -/
theorem taskLE_imp_specBefore (now : Int) {a b : Task} :
    taskLE now a b = true → specBefore now a b := by
  rw [taskLE_iff]
  unfold taskKey specBefore
  rw [Prod.Lex.le_iff]
  rintro (h | ⟨h, h'⟩)
  · exact Or.inl (Bool.lt_iff.mp h)
  · rw [Prod.Lex.le_iff] at h'
    rcases h' with h' | ⟨h', h''⟩
    · exact Or.inr (Or.inl ⟨h, neg_lt_neg_iff.mp h'⟩)
    · exact Or.inr (Or.inr ⟨h, neg_inj.mp h', h''⟩)

/-- C2. `sortTasksByPriority` returns a permutation of its input
that is sorted by the total order evaluated top-down — every incomplete
task strictly before every completed one; among equal completion status
the higher `calculateTaskScore` first; score ties broken by earlier
absolute deadline — and tasks equal in completion status, score and
deadline keep their input relative order (stable sort).  The input list
is untouched (the embedding is a pure function on immutable lists). -/
theorem sortTasksByPriority_spec (now : Int) (tasks : List Task) :
    (sortTasksByPriority now tasks).Perm tasks ∧
    (sortTasksByPriority now tasks).Pairwise (specBefore now) ∧
    (∀ a b : Task, a.completed = b.completed →
      calculateTaskScore now a = calculateTaskScore now b →
      a.deadline = b.deadline →
      [a, b].Sublist tasks → [a, b].Sublist (sortTasksByPriority now tasks)) := by
  unfold sortTasksByPriority
  refine ⟨List.mergeSort_perm tasks _, ?_, ?_⟩
  · exact (List.sorted_mergeSort (taskLE_trans now) (taskLE_total now)
      tasks).imp (fun h => taskLE_imp_specBefore now h)
  · intro a b hc hs hd hsub
    refine List.pair_sublist_mergeSort (taskLE_trans now) (taskLE_total now)
      ?_ hsub
    rw [taskLE_iff]
    exact le_of_eq (by unfold taskKey; rw [hc, hs, hd])

/-- Concrete tied task (differs from `wTied2` only in opaque fields). -/
def wTied1 : Task :=
  { id := "t1", title := "T1", priority := Priority.low, deadline := 0,
    completed := false }

/-- Concrete tied task (differs from `wTied1` only in opaque fields). -/
def wTied2 : Task :=
  { id := "t2", title := "T2", priority := Priority.low, deadline := 0,
    completed := false }

/-- Witness for C2 at `now = 0` on two tasks tied in completion,
score and deadline. -/
theorem sortTasksByPriority_spec_witness :
    (sortTasksByPriority 0 [wTied1, wTied2]).Perm [wTied1, wTied2] ∧
    (sortTasksByPriority 0 [wTied1, wTied2]).Pairwise (specBefore 0) ∧
    [wTied1, wTied2].Sublist (sortTasksByPriority 0 [wTied1, wTied2]) :=
  ⟨(sortTasksByPriority_spec 0 [wTied1, wTied2]).1,
   (sortTasksByPriority_spec 0 [wTied1, wTied2]).2.1,
   (sortTasksByPriority_spec 0 [wTied1, wTied2]).2.2 wTied1 wTied2 rfl rfl rfl
     (List.Sublist.refl _)⟩

/-- C10. `sortTasksByPriority` returns a permutation of its input
(same length, same multiset, nothing dropped or duplicated), and
consequently `sortAndFilterTasks tasks f` is a permutation of
`filterTasks tasks f`. -/
theorem sortTasksByPriority_perm (now : Int) (tasks : List Task) :
    (sortTasksByPriority now tasks).Perm tasks ∧
    (sortTasksByPriority now tasks).length = tasks.length ∧
    ∀ f : String, (sortAndFilterTasks now tasks f).Perm (filterTasks tasks f) :=
  ⟨List.mergeSort_perm tasks _,
   List.length_mergeSort tasks,
   fun _ => List.mergeSort_perm _ _⟩

/-- If a concatenation of a block of elements failing `q` followed by a
block of elements satisfying `q` is written in two ways, the two splits
coincide. -/
theorem append_split_unique {α : Type} (q : α → Bool) :
    ∀ (xs₁ : List α) {xs₂ : List α} (ys₁ : List α) {ys₂ : List α},
      xs₁ ++ xs₂ = ys₁ ++ ys₂ →
      (∀ x ∈ xs₁, q x = false) → (∀ y ∈ ys₁, q y = false) →
      (∀ x ∈ xs₂, q x = true) → (∀ y ∈ ys₂, q y = true) →
      xs₁ = ys₁ ∧ xs₂ = ys₂ := by
  intro xs₁
  induction xs₁ with
  | nil =>
    intro xs₂ ys₁ ys₂ h h₁ h₂ h₃ h₄
    cases ys₁ with
    | nil => exact ⟨rfl, h⟩
    | cons y ys =>
      exfalso
      simp only [List.nil_append, List.cons_append] at h
      have hy : y ∈ xs₂ := h ▸ List.mem_cons_self y (ys ++ ys₂)
      have := h₃ y hy
      have := h₂ y (List.mem_cons_self y ys)
      simp_all
  | cons x xs ih =>
    intro xs₂ ys₁ ys₂ h h₁ h₂ h₃ h₄
    cases ys₁ with
    | nil =>
      exfalso
      simp only [List.cons_append, List.nil_append] at h
      have hx : x ∈ ys₂ := h ▸ List.mem_cons_self x (xs ++ xs₂)
      have := h₄ x hx
      have := h₁ x (List.mem_cons_self x xs)
      simp_all
    | cons y ys =>
      rw [List.cons_append, List.cons_append] at h
      injection h with hxy htl
      subst hxy
      obtain ⟨e₁, e₂⟩ := ih ys htl
        (fun a ha => h₁ a (List.mem_cons_of_mem _ ha))
        (fun a ha => h₂ a (List.mem_cons_of_mem _ ha)) h₃ h₄
      exact ⟨by rw [e₁], e₂⟩

/-- A stable merge sort commutes with filtering: filtering the sorted
list equals sorting the filtered list. -/
theorem filter_mergeSort_comm {α : Type} (le : α → α → Bool)
    (trans : ∀ (a b c : α), le a b → le b c → le a c)
    (total : ∀ (a b : α), le a b || le b a) (p : α → Bool) :
    ∀ l : List α, (l.mergeSort le).filter p = (l.filter p).mergeSort le := by
  intro l
  induction l with
  | nil => simp
  | cons a l ih =>
    obtain ⟨l₁, l₂, h₁, h₂, h₃⟩ := List.mergeSort_cons trans total a l
    by_cases hp : p a
    · obtain ⟨m₁, m₂, g₁, g₂, g₃⟩ :=
        List.mergeSort_cons trans total a (l.filter p)
      rw [List.filter_cons_of_pos hp, h₁, g₁, List.filter_append,
        List.filter_cons_of_pos hp]
      have key : l₁.filter p ++ l₂.filter p = m₁ ++ m₂ := by
        rw [← List.filter_append, ← h₂, ih, g₂]
      have s₁ : (l₁ ++ a :: l₂).Pairwise (fun x y => le x y = true) := by
        have := List.sorted_mergeSort trans total (a :: l)
        rwa [h₁] at this
      have s₂ : (m₁ ++ a :: m₂).Pairwise (fun x y => le x y = true) := by
        have := List.sorted_mergeSort trans total (a :: l.filter p)
        rwa [g₁] at this
      have hl₂ : ∀ x ∈ l₂.filter p, le a x = true := fun x hx =>
        List.rel_of_pairwise_cons (List.pairwise_append.mp s₁).2.1
          (List.mem_of_mem_filter hx)
      have hm₂ : ∀ x ∈ m₂, le a x = true := fun x hx =>
        List.rel_of_pairwise_cons (List.pairwise_append.mp s₂).2.1 hx
      have hl₁ : ∀ x ∈ l₁.filter p, le a x = false := fun x hx => by
        have := h₃ x (List.mem_of_mem_filter hx)
        simpa using this
      have hm₁ : ∀ x ∈ m₁, le a x = false := fun x hx => by
        have := g₃ x hx
        simpa using this
      obtain ⟨e₁, e₂⟩ :=
        append_split_unique (fun x => le a x) (l₁.filter p) m₁ key hl₁ hm₁
          hl₂ hm₂
      rw [e₁, e₂]
    · rw [List.filter_cons_of_neg hp, h₁, List.filter_append,
        List.filter_cons_of_neg hp, ← List.filter_append, ← h₂]
      exact ih

/-- C7. For every task list and every filter selection, applying
Filter then Sort gives the same result as applying Sort then Filter:
`sortAndFilterTasks tasks f = filterTasks (sortTasksByPriority tasks) f`;
the composition order does not affect the output. -/
theorem sortAndFilterTasks_comm (now : Int) (tasks : List Task) (f : String) :
    sortAndFilterTasks now tasks f
      = filterTasks (sortTasksByPriority now tasks) f := by
  unfold sortAndFilterTasks filterTasks sortTasksByPriority
  split_ifs with h1 h2
  · exact (filter_mergeSort_comm (taskLE now) (taskLE_trans now)
      (taskLE_total now) _ tasks).symm
  · exact (filter_mergeSort_comm (taskLE now) (taskLE_trans now)
      (taskLE_total now) _ tasks).symm
  · rfl

/-- Concrete task whose deadline is half an hour after the epoch. -/
def wHalfHour : Task :=
  { id := "h", title := "H", priority := Priority.high, deadline := 1800000,
    completed := false }

/-- C8 counterexample. At `now = 0`, a high-priority incomplete task
due in half an hour scores `100 + 500 − 0.5 = 599.5`, which is not an
integer: `calculateTaskScore` does not always return an integer. -/
theorem calculateTaskScore_not_int :
    ¬ ∃ n : ℤ, calculateTaskScore 0 wHalfHour = (n : ℚ) := by
  rintro ⟨n, hn⟩
  have hv : calculateTaskScore 0 wHalfHour = 1199 / 2 := by
    norm_num [calculateTaskScore, hoursUntilDeadline, PRIORITY_WEIGHTS,
      wHalfHour, min_def]
  rw [hv] at hn
  have h2 : (2 : ℚ) * n = 1199 := by rw [← hn]; ring
  have h3 : (2 : ℤ) * n = 1199 := by exact_mod_cast h2
  omega

/-- C8 amended. `calculateTaskScore` returns a rational number, not
always an integer; it is an integer for every completed task (the
sentinel −1000, regardless of the deadline) and whenever
`deadline − now` is a whole number of hours (an integer multiple of
3 600 000 ms). -/
theorem calculateTaskScore_int_of_whole_hours (now : Int) (t : Task)
    (h : t.completed = true ∨ (3600000 : ℤ) ∣ (t.deadline - now)) :
    ∃ n : ℤ, calculateTaskScore now t = (n : ℚ) := by
  by_cases hc : t.completed
  · exact ⟨-1000, by simp [calculateTaskScore, hc]⟩
  · rcases h with h | h
    · exact absurd h hc
    obtain ⟨k, hk⟩ := h
    have hh : hoursUntilDeadline t.deadline now = (k : ℚ) := by
      unfold hoursUntilDeadline
      rw [hk]
      push_cast
      rw [mul_comm, mul_div_assoc]
      norm_num
    obtain ⟨b, hb⟩ : ∃ b : ℤ, PRIORITY_WEIGHTS t.priority = (b : ℚ) := by
      cases t.priority
      · exact ⟨10, by norm_num [PRIORITY_WEIGHTS]⟩
      · exact ⟨50, by norm_num [PRIORITY_WEIGHTS]⟩
      · exact ⟨100, by norm_num [PRIORITY_WEIGHTS]⟩
    unfold calculateTaskScore
    simp only [hc, Bool.false_eq_true, if_false, hh, hb]
    split_ifs
    · exact ⟨b + 1000 - min k 1000, by push_cast [Int.cast_min]; ring⟩
    · exact ⟨b + 500 - min k 1000, by push_cast [Int.cast_min]; ring⟩
    · exact ⟨b + 200 - min k 1000, by push_cast [Int.cast_min]; ring⟩
    · exact ⟨b + 50 - min k 1000, by push_cast [Int.cast_min]; ring⟩
    · exact ⟨b - min k 1000, by push_cast [Int.cast_min]; ring⟩

/-- Concrete task due exactly 30 hours after the epoch. -/
def wWholeHours : Task :=
  { id := "w", title := "W", priority := Priority.medium,
    deadline := 108000000, completed := false }

/-- Concrete completed task whose deadline offset is not a whole number
of hours. -/
def wDoneHalf : Task :=
  { id := "d", title := "D", priority := Priority.low, deadline := 1800000,
    completed := true }

/-- Witness for the amended C8, exercising both branches of the
hypothesis: a completed task with a non-whole-hour offset, and an
incomplete task due a whole number of hours away. -/
theorem calculateTaskScore_int_witness :
    (wDoneHalf.completed = true ∧
      ∃ n : ℤ, calculateTaskScore 0 wDoneHalf = (n : ℚ)) ∧
    ((3600000 : ℤ) ∣ (wWholeHours.deadline - 0) ∧
      ∃ n : ℤ, calculateTaskScore 0 wWholeHours = (n : ℚ)) :=
  ⟨⟨rfl, calculateTaskScore_int_of_whole_hours 0 wDoneHalf (Or.inl rfl)⟩,
   ⟨⟨30, by norm_num [wWholeHours]⟩,
    calculateTaskScore_int_of_whole_hours 0 wWholeHours
      (Or.inr ⟨30, by norm_num [wWholeHours]⟩)⟩⟩

/-- Trace in which every `new Date()` evaluation returns 0. -/
def wTraceConst : Nat → Int := fun _ => 0

/-- Trace whose first reading is 0 but whose later readings are two
hours later: the clock advances between the two reads of one
comparison. -/
def wTraceJump : Nat → Int := fun k => if k = 0 then 0 else 7200000

/-- Concrete incomplete task due at the epoch. -/
def wClock1 : Task :=
  { id := "c1", title := "C1", priority := Priority.low, deadline := 0,
    completed := false }

/-- Concrete incomplete task due one hour after the epoch. -/
def wClock2 : Task :=
  { id := "c2", title := "C2", priority := Priority.low,
    deadline := 3600000, completed := false }

/-- C9 (the code violates the claim). A single comparator call of
the sort consumes two wall-clock readings — the source re-evaluates
`new Date()` inside `hoursUntilDeadline` on every score computation —
and the outcome depends on readings beyond the first: with the same
first reading (`now = 0`), a steady clock orders `wClock1` strictly
before `wClock2`, while a clock that advances between the two reads of
the same comparison orders them the other way. -/
theorem compareTasks_resamples_clock :
    wTraceConst 0 = wTraceJump 0 ∧
    (compareTasksClk wTraceConst wClock1 wClock2 0).2 = 2 ∧
    (compareTasksClk wTraceConst wClock1 wClock2 0).1 < 0 ∧
    0 < (compareTasksClk wTraceJump wClock1 wClock2 0).1 := by
  have e1 : compareTasksClk wTraceConst wClock1 wClock2 0 = (-1, 2) := by
    norm_num [compareTasksClk, calculateTaskScoreClk, hoursUntilDeadlineClk,
      PRIORITY_WEIGHTS, wTraceConst, wClock1, wClock2, min_def]
  have e2 : compareTasksClk wTraceJump wClock1 wClock2 0 = (501, 2) := by
    norm_num [compareTasksClk, calculateTaskScoreClk, hoursUntilDeadlineClk,
      PRIORITY_WEIGHTS, wTraceJump, wClock1, wClock2, min_def]
  refine ⟨rfl, ?_, ?_, ?_⟩ <;> simp [e1, e2]

end SmartFlow
